import Mathlib

/-!
Shallow embedding of the `vms` package of avalanche-network-runner
(`src/vms/subnet.go`), together with theorems settling the claims about its
subnet-setup workflow.

Modelling conventions:
- External collaborators (the fleet handle, the ledger API clients, the genesis
  file reader) are modelled as explicit inputs: each call the Go code makes is
  represented by the value that call would return, supplied as a parameter.
- Functions that interact with the outside world additionally return an event
  trace recording, in program order, which external calls were issued.
- A poll loop that in Go runs until the context is cancelled is modelled over a
  finite list of responses; exhausting the list models the context firing
  (the `select` on `ctx.Done()` at the top of each iteration).
- Go map indexing with a missing key yields the zero value; calling a method on
  the resulting nil interface is a panic.  This is modelled by a distinguished
  `panicNilNode` outcome, separate from an ordinary error return.
-/

set_option autoImplicit false

namespace VMS

/-- Modelled from the spec: the fast retry interval between confirmation polls
(`apiRetryFreq`).  Its definition is in a repository file not under `src/`;
only its identity and its being shorter than `longTimeout` matter here. -/
def apiRetryFreq : Nat := 1

/-- Modelled from the spec: the long initial poll interval used by the
validating-status wait (`longTimeout`).  Its definition is in a repository file
not under `src/`; only its identity and `apiRetryFreq < longTimeout` matter. -/
def longTimeout : Nat := 100

/-- A node name, the key of the fleet map. -/
abbrev NodeName := String

/-- The data of a `node.Node` that this package reads: identity, URL, API port. -/
structure Node where
  nodeID : String
  url : String
  apiPort : Nat
deriving DecidableEq, Repr

/-- Transaction status as returned by `GetTxStatus` (platformvm). -/
inductive TxStatus where
  | Committed
  | Processing
  | Dropped
  | Unknown
deriving DecidableEq, Repr

/-- Blockchain status as returned by `GetBlockchainStatus` (platformvm). -/
inductive BlockchainStatus where
  | Validating
  | Syncing
  | Created
  | Preferred
deriving DecidableEq, Repr

/-- Association-list lookup, modelling Go map indexing (`allNodes[name]`). -/
def lookupNode : List (NodeName × Node) → NodeName → Option Node
  | [], _ => none
  | (k, v) :: rest, n => if k = n then some v else lookupNode rest n

/-- The shared `args` structure built by `newArgs` (logger omitted; the
issuing node is recorded by name next to the data the code keeps). -/
structure Args where
  txNodeName : NodeName
  fundedAddress : String
  allNodes : List (NodeName × Node)
  rSubnetID : String
deriving DecidableEq, Repr

/-- Network calls `newArgs` can issue against the issuing node. -/
inductive NArgsEvent where
  | createUserCall
  | importKeyCall
deriving DecidableEq, Repr

/-- Outcome of `newArgs`: a built `Args`, an error return, or the Go panic
that follows calling `GetAPIClient` on a nil node interface. -/
inductive NArgsResult where
  | ok (a : Args)
  | err (msg : String)
  | panicNilNode
deriving DecidableEq, Repr

/-- Inputs of `newArgs`: the results the external collaborators would return.
`parseSubnetID` is the result of `ids.FromString vm.SubnetID` (`none` models a
malformed identifier string). -/
structure NewArgsInput where
  getAllNodesRes : Except String (List (NodeName × Node))
  getNodeNamesRes : Except String (List NodeName)
  createUserRes : Bool × Option String
  importKeyRes : Except String String
  parseSubnetID : Option String
deriving Repr

/-- Embedding of `newArgs` (src/vms/subnet.go:91-140).  Mirrors the source
order: GetAllNodes, GetNodeNames, empty-name-list check, map index of the
first name, CreateUser, ImportKey, and only then `ids.FromString`. -/
def newArgs (inp : NewArgsInput) : NArgsResult × List NArgsEvent :=
  match inp.getAllNodesRes with
  | .error e => (.err e, [])
  | .ok allNodes =>
    match inp.getNodeNamesRes with
    | .error e => (.err e, [])
    | .ok txNodeNames =>
      match txNodeNames with
      | [] => (.err "the array of node names is empty! Can not get any nodes", [])
      | n0 :: _ =>
        match lookupNode allNodes n0 with
        | none => (.panicNilNode, [])
        | some _txNode =>
          match inp.createUserRes with
          | (okFlag, uerr) =>
            if !okFlag || uerr.isSome then
              (.err "could not create user", [.createUserCall])
            else
              match inp.importKeyRes with
              | .error e =>
                (.err ("unable to import genesis key: " ++ e),
                 [.createUserCall, .importKeyCall])
              | .ok fundedAddress =>
                match inp.parseSubnetID with
                | none =>
                  (.err "invalid subnetID string",
                   [.createUserCall, .importKeyCall])
                | some rSubnetID =>
                  (.ok { txNodeName := n0
                         fundedAddress := fundedAddress
                         allNodes := allNodes
                         rSubnetID := rSubnetID },
                   [.createUserCall, .importKeyCall])

/-- Embedding of `isSubnetInList` (src/vms/subnet.go:185-191).  The argument is
the result of `txPChainClient.GetSubnets([rSubnetID])` on the issuing node.
The source binds the returned list to `_` and only tests the error. -/
def isSubnetInList (getSubnetsRes : Except String (List String)) :
    Except String Unit :=
  match getSubnetsRes with
  | .error e => .error ("subnet not found: " ++ e)
  | .ok _subnets => .ok ()

/-- One response of a `GetTxStatus` poll on one node: a query error or a
status value. -/
inductive PollResp where
  | err (e : String)
  | status (s : TxStatus)
deriving DecidableEq, Repr

/-- The per-node worker loop of the fleet-wide commitment wait
(src/vms/subnet.go:162-179 and 218-235): sleep, query, fail on error, succeed
on `Committed`, otherwise retry.  An exhausted list models `ctx.Done()`
firing, upon which the worker returns the context error. -/
def commitWorker : List PollResp → Except String Unit
  | [] => .error "context done"
  | .err e :: _ => .error e
  | .status .Committed :: _ => .ok ()
  | .status _ :: rest => commitWorker rest

/-- `errgroup.Wait` over a list of worker outcomes: `ok` when every worker
returned `ok`, otherwise some worker's error (this deterministic model returns
the first in list order; the source fixes no tie-break). -/
def groupWait : List (Except String Unit) → Except String Unit
  | [] => .ok ()
  | .error e :: _ => .error e
  | .ok () :: rest => groupWait rest

/-- Embedding of `createSubnet` (src/vms/subnet.go:145-182): issue the
CreateSubnet transaction once, then fan out one commit worker per fleet node.
`submitRes` is the result of `CreateSubnet` on the issuing node; `fleet` pairs
each node with the stream of `GetTxStatus` responses its worker observes. -/
def createSubnet (submitRes : Except String String)
    (fleet : List (NodeName × List PollResp)) : Except String Unit :=
  match submitRes with
  | .error e => .error ("unable to create subnet: " ++ e)
  | .ok _subnetIDTx => groupWait (fleet.map (fun p => commitWorker p.2))

/-- Events of the validator-registration stage: the k-th AddSubnetValidator
submission, and the completion of the fleet-wide wait for the k-th
transaction. -/
inductive VEvent where
  | submit (k : Nat)
  | waitOk (k : Nat)
  | waitFail (k : Nat)
deriving DecidableEq, Repr

/-- The fleet-wide commitment wait of round `k` of `addAllAsValidators`:
one commit worker per fleet node (`n` nodes), worker `i` observing the
response stream `polls i`. -/
def fleetWait (n : Nat) (polls : Nat → List PollResp) : Except String Unit :=
  groupWait ((List.range n).map (fun i => commitWorker (polls i)))

/-- The sequential loop of `addAllAsValidators` (src/vms/subnet.go:198-240)
over the remaining fleet nodes, `k` being the index of the current round and
`n` the fleet size.  Each round submits `AddSubnetValidator` on the issuing
node (result `submitRes k`) and, if that succeeded, runs the fleet-wide wait
(worker streams `fleetPolls k`); a submit error or wait error returns
immediately. -/
def addValLoop (names : List NodeName) (k n : Nat)
    (submitRes : Nat → Except String String)
    (fleetPolls : Nat → Nat → List PollResp) :
    Except String Unit × List VEvent :=
  match names with
  | [] => (.ok (), [])
  | _ :: rest =>
    match submitRes k with
    | .error e => (.error ("unable to add subnet validator: " ++ e), [.submit k])
    | .ok _txID =>
      match fleetWait n (fleetPolls k) with
      | .error e => (.error e, [.submit k, .waitFail k])
      | .ok () =>
        match addValLoop rest (k + 1) n submitRes fleetPolls with
        | (res, tr) => (res, .submit k :: .waitOk k :: tr)

/-- Embedding of `addAllAsValidators` (src/vms/subnet.go:196-243): one round
per fleet node, strictly sequential. -/
def addAllAsValidators (allNodes : List NodeName)
    (submitRes : Nat → Except String String)
    (fleetPolls : Nat → Nat → List PollResp) :
    Except String Unit × List VEvent :=
  addValLoop allNodes 0 allNodes.length submitRes fleetPolls

/-- The indices of the submissions appearing in a trace, in trace order. -/
def submits (tr : List VEvent) : List Nat :=
  tr.filterMap (fun e => match e with | .submit k => some k | _ => none)

/-- The trace of a run of `addValLoop` in which rounds `k, ..., k+n-1` all
succeed. -/
def goodTrace (k : Nat) : Nat → List VEvent
  | 0 => []
  | n + 1 => .submit k :: .waitOk k :: goodTrace (k + 1) n

/-- Events of the chain-creation stage.  A query event records the client it
was issued on and the interval slept before it. -/
inductive CBEvent where
  | submitChain
  | query (client : String) (interval : Nat)
deriving DecidableEq, Repr

/-- The issuer-local poll loop of `createBlockchain`
(src/vms/subnet.go:267-282): sleep `apiRetryFreq`, query `GetTxStatus` on the
issuing node's client, stop on error or `Committed`; an exhausted list models
the caller's context firing — the loop itself has no deadline. -/
def cbPollLoop (issuer : String) :
    List PollResp → Except String Unit × List CBEvent
  | [] => (.error "context done", [])
  | .err e :: _ => (.error e, [.query issuer apiRetryFreq])
  | .status .Committed :: _ => (.ok (), [.query issuer apiRetryFreq])
  | .status _ :: rest =>
    match cbPollLoop issuer rest with
    | (res, tr) => (res, .query issuer apiRetryFreq :: tr)

/-- Embedding of `createBlockchain` (src/vms/subnet.go:248-283).  `genesisRes`
is the result of `os.ReadFile vm.Genesis`; `submitRes` the result of
`CreateBlockchain` on the issuing node; `polls` the `GetTxStatus` responses of
the issuing node.  On success it returns the transaction handle of the
submission. -/
def createBlockchain (issuer : String) (genesisRes : Except String String)
    (submitRes : Except String String) (polls : List PollResp) :
    Except String String × List CBEvent :=
  match genesisRes with
  | .error e => (.error ("could not read genesis file: " ++ e), [])
  | .ok _genesis =>
    match submitRes with
    | .error e => (.error ("could not create blockchain: " ++ e), [.submitChain])
    | .ok txID =>
      match cbPollLoop issuer polls with
      | (.error e, tr) => (.error e, .submitChain :: tr)
      | (.ok (), tr) => (.ok txID, .submitChain :: tr)

/-- One response of a `GetBlockchainStatus` poll on one node. -/
inductive VPoll where
  | err (e : String)
  | status (s : BlockchainStatus)
deriving DecidableEq, Repr

/-- Outcome of one worker of `ensureValidating` (src/vms/subnet.go:311-332):
a query error fails the worker at once; `Validating` succeeds; any other
status retries.  An exhausted list models the context firing.  (The shared
pacing value read by this loop does not affect the outcome; it is modelled
separately by `vStep`/`vRun`.) -/
def validatingWorker : List VPoll → Except String Unit
  | [] => .error "context done"
  | .err e :: _ => .error ("error querying blockchain status: " ++ e)
  | .status .Validating :: _ => .ok ()
  | .status _ :: rest => validatingWorker rest

/-- Embedding of the outcome of `ensureValidating` (src/vms/subnet.go:305-336):
fan out one worker per node and join. -/
def ensureValidating (nodes : List (NodeName × List VPoll)) :
    Except String Unit :=
  groupWait (nodes.map (fun p => validatingWorker p.2))

/-- One response of an `IsBootstrapped` query: the boolean together with the
error the call also returns (which the source discards). -/
abbrev BPoll := Bool × Option String

/-- Outcome of one worker of `ensureBootstrapped` (src/vms/subnet.go:346-361):
the error result of `IsBootstrapped` is bound to `_` and ignored; only the
boolean is tested, so a query error counts as "not yet" and the loop
retries. -/
def bootstrappedWorker : List BPoll → Except String Unit
  | [] => .error "context done"
  | (true, _) :: _ => .ok ()
  | (false, _) :: rest => bootstrappedWorker rest

/-- Embedding of the outcome of `ensureBootstrapped`
(src/vms/subnet.go:341-364). -/
def ensureBootstrapped (nodes : List (NodeName × List BPoll)) :
    Except String Unit :=
  groupWait (nodes.map (fun p => bootstrappedWorker p.2))

/-- Number of responses a validating worker consumes (one query each). -/
def vConsumed : List VPoll → Nat
  | [] => 0
  | .err _ :: _ => 1
  | .status .Validating :: _ => 1
  | .status _ :: rest => vConsumed rest + 1

/-- Number of responses a bootstrap worker consumes (one query each). -/
def bConsumed : List BPoll → Nat
  | [] => 0
  | (true, _) :: _ => 1
  | (false, _) :: rest => bConsumed rest + 1

/-- Observations of the finalization stage: every `GetBlockchainStatus`
query, every `IsBootstrapped` query (each recording the node name and the
chain identifier string passed to it), and every endpoint report line
(node identity, URL, API port, chain identifier). -/
structure FinObs where
  vQueries : List (NodeName × String)
  bQueries : List (NodeName × String)
  reports : List (String × String × Nat × String)
deriving DecidableEq, Repr

/-- Embedding of `finalizeBlockchain` (src/vms/subnet.go:288-301): run
`ensureValidating`, then `ensureBootstrapped`, both keyed by
`blockchainID`; on success print one endpoint line per node containing
`blockchainID.String()`.  Returns the outcome together with the observations
actually made (queries of a stage are recorded only if the stage runs). -/
def finalizeBlockchain (allNodes : List (NodeName × Node))
    (blockchainID : String) (vpolls : NodeName → List VPoll)
    (bpolls : NodeName → List BPoll) : Except String Unit × FinObs :=
  let vq := allNodes.flatMap (fun p =>
    (List.replicate (vConsumed (vpolls p.1)) (p.1, blockchainID)))
  match ensureValidating (allNodes.map (fun p => (p.1, vpolls p.1))) with
  | .error e =>
    (.error ("error checking all nodes are validating the blockchain: " ++ e),
     { vQueries := vq, bQueries := [], reports := [] })
  | .ok () =>
    let bq := allNodes.flatMap (fun p =>
      (List.replicate (bConsumed (bpolls p.1)) (p.1, blockchainID)))
    match ensureBootstrapped (allNodes.map (fun p => (p.1, bpolls p.1))) with
    | .error e =>
      (.error ("error checking blockchain is bootstrapped: " ++ e),
       { vQueries := vq, bQueries := bq, reports := [] })
    | .ok () =>
      (.ok (),
       { vQueries := vq, bQueries := bq
         reports := allNodes.map (fun p =>
           (p.2.nodeID, p.2.url, p.2.apiPort, blockchainID)) })

/-- State of one worker in the interleaved model of `ensureValidating`:
its remaining responses and its result (`none` while still looping). -/
structure VWorkerSt where
  polls : List VPoll
  result : Option (Except String Unit)
deriving Repr

/-- State of the interleaved model of `ensureValidating`: the shared
`statusCheckTimeout` variable, the workers, and the record of every interval
slept so far (most recent first). -/
structure VSt where
  pacing : Nat
  workers : List VWorkerSt
  sleeps : List Nat
deriving Repr

/-- Initial state of `ensureValidating` (src/vms/subnet.go:306):
`statusCheckTimeout := longTimeout`, all workers running. -/
def vInit (inputs : List (List VPoll)) : VSt :=
  { pacing := longTimeout
    workers := inputs.map (fun p => { polls := p, result := none })
    sleeps := [] }

/-- One scheduler step of worker `w` of `ensureValidating`
(src/vms/subnet.go:314-331): if still running, sleep the current shared
`pacing` and consume one response — a query error fails the worker,
`Validating` succeeds it and sets the shared pacing to `apiRetryFreq`
(src/vms/subnet.go:326), any other status leaves it looping.  An exhausted
list models the context firing (no sleep is recorded: `ctx.Done()` wins the
select). -/
def vStepW (pacing : Nat) (w : VWorkerSt) :
    VWorkerSt × Nat × Option Nat :=
  match w.result with
  | some _ => (w, pacing, none)
  | none =>
    match w.polls with
    | [] => ({ w with result := some (.error "context done") }, pacing, none)
    | .err e :: rest =>
      ({ polls := rest
         result := some (.error ("error querying blockchain status: " ++ e)) },
       pacing, some pacing)
    | .status .Validating :: rest =>
      ({ polls := rest, result := some (.ok ()) }, apiRetryFreq, some pacing)
    | .status _ :: rest =>
      ({ polls := rest, result := none }, pacing, some pacing)

/-- Replace the `i`-th element of a list by `f` applied to it. -/
def listModify {α : Type} (f : α → α) : Nat → List α → List α
  | _, [] => []
  | 0, x :: xs => f x :: xs
  | i + 1, x :: xs => x :: listModify f i xs

/-- One step of the interleaved model: the scheduler picks worker index `i`. -/
def vStep (s : VSt) (i : Nat) : VSt :=
  match s.workers[i]? with
  | none => s
  | some w =>
    match vStepW s.pacing w with
    | (w2, pacing2, slept) =>
      { pacing := pacing2
        workers := listModify (fun _ => w2) i s.workers
        sleeps := match slept with | none => s.sleeps | some d => d :: s.sleeps }

/-- Run the interleaved model under a schedule (a list of worker choices). -/
def vRun (s : VSt) : List Nat → VSt
  | [] => s
  | i :: rest => vRun (vStep s i) rest

/-- Whether a worker result records success. -/
def isOkResult : Option (Except String Unit) → Bool
  | some (.ok ()) => true
  | _ => false

/-- Whether some worker has already succeeded (observed `Validating`). -/
def someConfirmed (s : VSt) : Bool :=
  s.workers.any (fun w => isOkResult w.result)

/-- A poll response that keeps a commit worker looping: a status that is
neither an error nor `Committed`. -/
def isPending : PollResp → Bool
  | .status .Committed => false
  | .status _ => true
  | .err _ => false

theorem groupWait_cons_ok (l : List (Except String Unit)) :
    groupWait (.ok () :: l) = groupWait l := rfl

theorem groupWait_cons_error (e : String) (l : List (Except String Unit)) :
    groupWait (.error e :: l) = .error e := rfl

/-- `errgroup.Wait` succeeds exactly when every worker returned success. -/
theorem groupWait_ok_iff (l : List (Except String Unit)) :
    groupWait l = .ok () ↔ ∀ r ∈ l, r = .ok () := by
  induction l with
  | nil => simp [groupWait]
  | cons x rest ih =>
    rcases x with e | u
    · simp [groupWait]
    · rcases u
      simp [groupWait_cons_ok, ih]

/-- If some worker did not succeed, `errgroup.Wait` returns an error. -/
theorem groupWait_fail (l : List (Except String Unit)) (r : Except String Unit)
    (hr : r ∈ l) (hne : r ≠ .ok ()) : ∃ e, groupWait l = .error e := by
  rcases h : groupWait l with e | u
  · exact ⟨e, rfl⟩
  · rcases u
    exact absurd ((groupWait_ok_iff l).1 h r hr) hne

/-- A commit worker terminates successfully the instant it observes
`Committed`, regardless of any responses that would have followed. -/
theorem commitWorker_stops_at_committed (pre rest : List PollResp)
    (h : ∀ r ∈ pre, isPending r = true) :
    commitWorker (pre ++ .status .Committed :: rest) = .ok () := by
  induction pre with
  | nil => rfl
  | cons x xs ih =>
    have hx := h x (by simp)
    have htail : ∀ r ∈ xs, isPending r = true := fun r hr => h r (by simp [hr])
    rcases x with e | s
    · simp [isPending] at hx
    · rcases s with _ | _ | _ | _
      · simp [isPending] at hx
      all_goals simpa [commitWorker] using ih htail

/-- A bootstrap worker swallows any number of erroring queries and still
succeeds once the node reports `true`. -/
theorem bootstrappedWorker_tolerates (k : Nat) (e r : Option String)
    (rest : List BPoll) :
    bootstrappedWorker (List.replicate k (false, e) ++ (true, r) :: rest) =
      .ok () := by
  induction k with
  | zero => rfl
  | succ n ih => simpa [List.replicate_succ, bootstrappedWorker] using ih

/-- When every node before the faulty one succeeds, `ensureValidating`
returns exactly the faulty node's query error. -/
theorem ensureValidating_first_error (pre post : List (NodeName × List VPoll))
    (name : NodeName) (e : String) (rest : List VPoll)
    (hpre : ∀ q ∈ pre, validatingWorker q.2 = .ok ()) :
    ensureValidating (pre ++ (name, .err e :: rest) :: post) =
      .error ("error querying blockchain status: " ++ e) := by
  induction pre with
  | nil => rfl
  | cons q qs ih =>
    have hq : validatingWorker q.2 = .ok () := hpre q (by simp)
    have htail : ∀ x ∈ qs, validatingWorker x.2 = .ok () :=
      fun x hx => hpre x (by simp [hx])
    simp only [List.cons_append, ensureValidating, List.map_cons, hq,
      groupWait_cons_ok]
    exact ih htail

/-- Whether a `newArgs` outcome is an ordinary error return. -/
def isErr : NArgsResult → Bool
  | .err _ => true
  | _ => false

/-- A concrete `newArgs` input whose subnet identifier string is malformed
while every earlier collaborator call succeeds. -/
def badSubnetIDInput : NewArgsInput :=
  { getAllNodesRes := .ok [("node1", { nodeID := "id1", url := "localhost", apiPort := 9650 })]
    getNodeNamesRes := .ok ["node1"]
    createUserRes := (true, none)
    importKeyRes := .ok "P-funded"
    parseSubnetID := none }

/-- A concrete `newArgs` input whose fleet map is empty while the node-name
list is not. -/
def emptyFleetInput : NewArgsInput :=
  { getAllNodesRes := .ok []
    getNodeNamesRes := .ok ["node1"]
    createUserRes := (true, none)
    importKeyRes := .ok "P-funded"
    parseSubnetID := some "subnet1" }

/-- A concrete `newArgs` input whose node-name list is empty. -/
def emptyNamesInput : NewArgsInput :=
  { getAllNodesRes := .ok [("node1", { nodeID := "id1", url := "localhost", apiPort := 9650 })]
    getNodeNamesRes := .ok []
    createUserRes := (true, none)
    importKeyRes := .ok "P-funded"
    parseSubnetID := some "subnet1" }

/-- Claim C1 (code bug): the list-membership sanity check of the Subnet
Creation Stage never inspects the returned list.  `isSubnetInList` succeeds on
every non-error `GetSubnets` result, in particular on a returned list that
does not contain the subnet identifier at all — the empty list — even though
its own doc comment says it returns an error if the subnet is not in the
list. -/
theorem C1_isSubnetInList_ignores_returned_list :
    (∀ subnets : List String, isSubnetInList (Except.ok subnets) = Except.ok ()) ∧
      isSubnetInList (Except.ok []) = Except.ok () ∧ ("subnet1" ∈ ([] : List String)) = False := by
  refine ⟨fun subnets => rfl, rfl, by simp⟩

/-- Claim C2, counterexample: on a malformed subnet identifier whose earlier
steps all succeed, `newArgs` does reject with the parse error, but its event
trace shows the keystore user was created and the private key imported on the
issuing node before the rejection — network calls were made first. -/
theorem C2_counterexample :
    badSubnetIDInput.parseSubnetID = none ∧
      newArgs badSubnetIDInput =
        (.err "invalid subnetID string",
         [.createUserCall, .importKeyCall]) := by
  exact ⟨rfl, rfl⟩

/-- Claim C2, amended: for every input whose subnet identifier string is
malformed and which passes the earlier steps, `newArgs` fails with the parse
error, but only after the keystore user has been created and the private key
imported on the issuing node; no further call follows the rejection. -/
theorem C2_parse_error_after_keystore_calls
    (inp : NewArgsInput) (m : List (NodeName × Node)) (n0 : NodeName)
    (ns : List NodeName) (nd : Node) (addr : String)
    (hAll : inp.getAllNodesRes = .ok m)
    (hNames : inp.getNodeNamesRes = .ok (n0 :: ns))
    (hLook : lookupNode m n0 = some nd)
    (hUser : inp.createUserRes = (true, none))
    (hImp : inp.importKeyRes = .ok addr)
    (hParse : inp.parseSubnetID = none) :
    newArgs inp =
      (.err "invalid subnetID string", [.createUserCall, .importKeyCall]) := by
  simp [newArgs, hAll, hNames, hLook, hUser, hImp, hParse]

/-- Witness for C2: the amended theorem applied at the concrete malformed
input. -/
theorem C2_witness :
    newArgs badSubnetIDInput =
      (.err "invalid subnetID string", [.createUserCall, .importKeyCall]) :=
  C2_parse_error_after_keystore_calls badSubnetIDInput
    [("node1", { nodeID := "id1", url := "localhost", apiPort := 9650 })]
    "node1" [] { nodeID := "id1", url := "localhost", apiPort := 9650 }
    "P-funded" rfl rfl (by simp [lookupNode]) rfl rfl rfl

/-- Claim C3, counterexample: a fleet handle returning an empty node map
together with a non-empty name list does not make `newArgs` return an error —
the first map lookup yields no node and the run ends in the nil-interface
method call, not an error return. -/
theorem C3_counterexample :
    newArgs emptyFleetInput = (.panicNilNode, []) ∧
      isErr (newArgs emptyFleetInput).1 = false := by
  exact ⟨rfl, rfl⟩

/-- Claim C3, amended: `newArgs` checks only the node-name list for
emptiness, failing with the configuration error before any network call; the
fleet map is never separately checked, and an empty fleet map combined with a
non-empty name list runs into the undefined nil-node method call instead of
an error return. -/
theorem C3_name_list_checked_fleet_map_not
    (inp : NewArgsInput) (m : List (NodeName × Node)) (n0 : NodeName)
    (ns : List NodeName)
    (hAll : inp.getAllNodesRes = .ok m) :
    (inp.getNodeNamesRes = .ok [] →
      newArgs inp =
        (.err "the array of node names is empty! Can not get any nodes", [])) ∧
    (inp.getNodeNamesRes = .ok (n0 :: ns) → m = [] →
      newArgs inp = (.panicNilNode, [])) := by
  constructor
  · intro hNames
    simp [newArgs, hAll, hNames]
  · intro hNames hm
    simp [newArgs, hAll, hNames, hm, lookupNode]

/-- Witness for C3: the amended theorem applied at the concrete empty-name
and empty-fleet inputs. -/
theorem C3_witness :
    newArgs emptyNamesInput =
      (.err "the array of node names is empty! Can not get any nodes", []) ∧
      newArgs emptyFleetInput = (.panicNilNode, []) :=
  ⟨(C3_name_list_checked_fleet_map_not emptyNamesInput
      [("node1", { nodeID := "id1", url := "localhost", apiPort := 9650 })]
      "x" [] rfl).1 rfl,
   (C3_name_list_checked_fleet_map_not emptyFleetInput [] "node1" [] rfl).2
     rfl rfl⟩

/-- Claim C9: `newArgs` indexes the all-nodes map with the first name of the
node-name list without checking membership.  Whenever that name is not a key
of the map, the lookup yields no node and the run ends in the undefined
nil-interface method call (`panicNilNode`); conversely, when the lookup
succeeds the nil-node outcome is unreachable — the panic is avoided exactly
under the precondition that the first returned name is a key of the map. -/
theorem C9_missing_first_name_is_nil_dereference
    (inp : NewArgsInput) (m : List (NodeName × Node)) (n0 : NodeName)
    (ns : List NodeName)
    (hAll : inp.getAllNodesRes = .ok m)
    (hNames : inp.getNodeNamesRes = .ok (n0 :: ns)) :
    (lookupNode m n0 = none → newArgs inp = (.panicNilNode, [])) ∧
    (∀ nd, lookupNode m n0 = some nd →
      (newArgs inp).1 ≠ NArgsResult.panicNilNode) := by
  constructor
  · intro hLook
    simp [newArgs, hAll, hNames, hLook]
  · intro nd hLook
    simp only [newArgs, hAll, hNames, hLook]
    by_cases hc : (!inp.createUserRes.1 || inp.createUserRes.2.isSome) = true
    · simp [hc]
    · rw [if_neg hc]
      rcases hik : inp.importKeyRes with e | addr
      · simp
      · rcases hp : inp.parseSubnetID with _ | sid <;> simp

/-- Witness for C9: applied to a fleet map that does not contain the first
node name. -/
theorem C9_witness :
    newArgs
      { getAllNodesRes := .ok [("a", { nodeID := "i", url := "u", apiPort := 1 })]
        getNodeNamesRes := .ok ["b"]
        createUserRes := (true, none)
        importKeyRes := .ok "addr"
        parseSubnetID := some "sid" } = (.panicNilNode, []) :=
  (C9_missing_first_name_is_nil_dereference
    { getAllNodesRes := .ok [("a", { nodeID := "i", url := "u", apiPort := 1 })]
      getNodeNamesRes := .ok ["b"]
      createUserRes := (true, none)
      importKeyRes := .ok "addr"
      parseSubnetID := some "sid" }
    [("a", { nodeID := "i", url := "u", apiPort := 1 })] "b" [] rfl rfl).1
    (by simp [lookupNode])

/-- Claim C6: the fleet-wide commitment wait of `createSubnet` succeeds if
and only if every node's worker observed status `Committed`; a worker
terminates successfully the instant it observes `Committed`; and any node
whose worker does not succeed (a permanently failing query, or never
`Committed` so the context fires) makes the wait return a non-nil error. -/
theorem C6_fleet_commit_wait (tx : String)
    (fleet : List (NodeName × List PollResp)) :
    (createSubnet (.ok tx) fleet = .ok () ↔
      ∀ p ∈ fleet, commitWorker p.2 = .ok ()) ∧
    (∀ pre rest : List PollResp, (∀ r ∈ pre, isPending r = true) →
      commitWorker (pre ++ .status .Committed :: rest) = .ok ()) ∧
    (∀ p ∈ fleet, commitWorker p.2 ≠ .ok () →
      ∃ e, createSubnet (.ok tx) fleet = .error e) := by
  refine ⟨?_, fun pre rest h => commitWorker_stops_at_committed pre rest h, ?_⟩
  · show groupWait (fleet.map (fun p => commitWorker p.2)) = .ok () ↔ _
    rw [groupWait_ok_iff]
    constructor
    · intro h p hp
      exact h _ (List.mem_map_of_mem _ hp)
    · intro h r hr
      rcases List.mem_map.1 hr with ⟨p, hp, rfl⟩
      exact h p hp
  · intro p hp hne
    exact groupWait_fail _ _ (List.mem_map_of_mem _ hp) hne

/-- Witness for C6: a two-node fleet in which both workers observe
`Committed` succeeds; replacing one node by a permanently erroring one makes
the wait fail. -/
theorem C6_witness :
    createSubnet (.ok "tx")
      [("n1", [.status .Processing, .status .Committed]),
       ("n2", [.status .Committed])] = .ok () ∧
    ∃ e, createSubnet (.ok "tx")
      [("n1", [.err "boom"]), ("n2", [.status .Committed])] = .error e := by
  constructor
  · exact (C6_fleet_commit_wait "tx" _).1.mpr (by
      intro p hp
      simp only [List.mem_cons, List.mem_singleton] at hp
      rcases hp with rfl | rfl | h
      · rfl
      · rfl
      · simp at h)
  · exact (C6_fleet_commit_wait "tx"
      [("n1", [.err "boom"]), ("n2", [.status .Committed])]).2.2
      ("n1", [.err "boom"]) (by simp) (by simp [commitWorker])

/-- Claim C5: query-error tolerance is asymmetric between the two
finalization waits.  A bootstrap worker swallows any number of erroring
queries and succeeds on a later `true`, and the bootstrap wait succeeds when
every worker does; a validating worker fails at once on its first query
error, a single erroring node makes the whole validating wait fail, and when
all nodes before it succeed the wait returns exactly that node's error. -/
theorem C5_error_tolerance_asymmetry
    (bnodes : List (NodeName × List BPoll))
    (vnodes : List (NodeName × List VPoll)) :
    (∀ (k : Nat) (e r : Option String) (rest : List BPoll),
      bootstrappedWorker (List.replicate k (false, e) ++ (true, r) :: rest) =
        .ok ()) ∧
    ((∀ p ∈ bnodes, bootstrappedWorker p.2 = .ok ()) →
      ensureBootstrapped bnodes = .ok ()) ∧
    (∀ (e : String) (rest : List VPoll),
      validatingWorker (.err e :: rest) =
        .error ("error querying blockchain status: " ++ e)) ∧
    (∀ p ∈ vnodes, (∃ e rest, p.2 = VPoll.err e :: rest) →
      ∃ msg, ensureValidating vnodes = .error msg) ∧
    (∀ (pre post : List (NodeName × List VPoll)) (name : NodeName)
       (e : String) (rest : List VPoll),
      (∀ q ∈ pre, validatingWorker q.2 = .ok ()) →
      ensureValidating (pre ++ (name, .err e :: rest) :: post) =
        .error ("error querying blockchain status: " ++ e)) := by
  refine ⟨fun k e r rest => bootstrappedWorker_tolerates k e r rest,
    ?_, fun e rest => rfl, ?_,
    fun pre post name e rest hpre =>
      ensureValidating_first_error pre post name e rest hpre⟩
  · intro h
    show groupWait (bnodes.map (fun p => bootstrappedWorker p.2)) = .ok ()
    rw [groupWait_ok_iff]
    intro r hr
    rcases List.mem_map.1 hr with ⟨p, hp, rfl⟩
    exact h p hp
  · intro p hp hex
    rcases hex with ⟨e, rest, hpe⟩
    refine groupWait_fail _ _ (List.mem_map_of_mem _ hp) ?_
    rw [hpe]
    simp [validatingWorker]

/-- Witness for C5: a node erring twice then reporting `true` still lets the
bootstrap wait succeed, while a single query error fails the validating wait
with that error. -/
theorem C5_witness :
    ensureBootstrapped
      [("n1", [(false, some "conn refused"), (false, some "conn refused"),
               (true, none)]),
       ("n2", [(true, none)])] = .ok () ∧
    ensureValidating
      [("n1", [.err "boom"]), ("n2", [.status .Validating])] =
      .error ("error querying blockchain status: " ++ "boom") := by
  constructor
  · exact (C5_error_tolerance_asymmetry _ []).2.1 (by
      intro p hp
      simp only [List.mem_cons, List.mem_singleton] at hp
      rcases hp with rfl | rfl | h
      · rfl
      · rfl
      · simp at h)
  · exact (C5_error_tolerance_asymmetry []
      [("n1", [.err "boom"]), ("n2", [.status .Validating])]).2.2.2.2 []
      [("n2", [.status .Validating])] "n1" "boom" [] (by intro q hq; simp at hq)

/-- Round `k` of the registration loop went through: the submission was
accepted and the fleet-wide wait succeeded. -/
def roundOk (n : Nat) (sr : Nat → Except String String)
    (fp : Nat → Nat → List PollResp) (k : Nat) : Prop :=
  (∃ t, sr k = .ok t) ∧ fleetWait n (fp k) = .ok ()

theorem addValLoop_nil (k n : Nat) (sr : Nat → Except String String)
    (fp : Nat → Nat → List PollResp) :
    addValLoop [] k n sr fp = (.ok (), []) := rfl

/-- The trace of a non-empty run starts with its own submission. -/
theorem addValLoop_head (x : NodeName) (names : List NodeName) (k n : Nat)
    (sr : Nat → Except String String) (fp : Nat → Nat → List PollResp) :
    ∃ tail, (addValLoop (x :: names) k n sr fp).2 = .submit k :: tail := by
  rcases hs : sr k with e | t
  · exact ⟨[], by simp [addValLoop, hs]⟩
  · rcases hw : fleetWait n (fp k) with e | u
    · exact ⟨[.waitFail k], by simp [addValLoop, hs, hw]⟩
    · rcases u
      exact ⟨.waitOk k :: (addValLoop names (k + 1) n sr fp).2,
        by simp [addValLoop, hs, hw]⟩

/-- Every submission index in a trace is at least the starting round, and
all rounds strictly before it went through. -/
theorem addValLoop_submit_mem (n : Nat) (sr : Nat → Except String String)
    (fp : Nat → Nat → List PollResp) :
    ∀ (names : List NodeName) (k m : Nat),
      VEvent.submit m ∈ (addValLoop names k n sr fp).2 →
      k ≤ m ∧ ∀ j, k ≤ j → j < m → roundOk n sr fp j := by
  intro names
  induction names with
  | nil =>
    intro k m h
    simp [addValLoop] at h
  | cons x rest ih =>
    intro k m h
    rcases hs : sr k with e | t
    · simp only [addValLoop, hs] at h
      simp at h
      subst h
      exact ⟨Nat.le_refl _, fun j hj1 hj2 => absurd (Nat.lt_of_le_of_lt hj1 hj2)
        (Nat.lt_irrefl _)⟩
    · rcases hw : fleetWait n (fp k) with e | u
      · simp only [addValLoop, hs, hw] at h
        simp at h
        subst h
        exact ⟨Nat.le_refl _, fun j hj1 hj2 => absurd (Nat.lt_of_le_of_lt hj1 hj2)
          (Nat.lt_irrefl _)⟩
      · rcases u
        simp only [addValLoop, hs, hw] at h
        simp only [List.mem_cons] at h
        rcases h with h | h | h
        · rcases h
          exact ⟨Nat.le_refl _, fun j hj1 hj2 =>
            absurd (Nat.lt_of_le_of_lt hj1 hj2) (Nat.lt_irrefl _)⟩
        · exact absurd h (by simp)
        · rcases ih (k + 1) m h with ⟨hkm, hall⟩
          refine ⟨Nat.le_of_succ_le hkm, fun j hj1 hj2 => ?_⟩
          rcases Nat.eq_or_lt_of_le hj1 with rfl | hlt
          · exact ⟨⟨t, hs⟩, hw⟩
          · exact hall j hlt hj2

/-- A run that returns success produces exactly the all-good trace: one
submission and one successful fleet-wide wait per node, in round order. -/
theorem addValLoop_ok_trace (n : Nat) (sr : Nat → Except String String)
    (fp : Nat → Nat → List PollResp) :
    ∀ (names : List NodeName) (k : Nat),
      (addValLoop names k n sr fp).1 = .ok () →
      (addValLoop names k n sr fp).2 = goodTrace k names.length := by
  intro names
  induction names with
  | nil =>
    intro k _
    rfl
  | cons x rest ih =>
    intro k hok
    rcases hs : sr k with e | t
    · simp [addValLoop, hs] at hok
    · rcases hw : fleetWait n (fp k) with e | u
      · simp [addValLoop, hs, hw] at hok
      · rcases u
        simp only [addValLoop, hs, hw] at hok ⊢
        simp only [List.length_cons, goodTrace]
        exact congrArg _ (congrArg _ (ih (k + 1) hok))

/-- The submission indices of the all-good trace are the consecutive rounds. -/
theorem goodTrace_submits :
    ∀ (n k : Nat), submits (goodTrace k n) = List.range' k n := by
  intro n
  induction n with
  | zero => intro k; rfl
  | succ m ih =>
    intro k
    simp only [goodTrace, submits, List.filterMap_cons]
    simpa [submits, List.range'] using ih (k + 1)

/-- Whenever the trace contains the submission of round `m + 1`, it contains
the successful completion of round `m`'s fleet-wide wait strictly before it. -/
theorem addValLoop_submit_after_wait (n : Nat) (sr : Nat → Except String String)
    (fp : Nat → Nat → List PollResp) :
    ∀ (names : List NodeName) (k m : Nat), k ≤ m →
      VEvent.submit (m + 1) ∈ (addValLoop names k n sr fp).2 →
      ∃ pre post, (addValLoop names k n sr fp).2 =
          pre ++ VEvent.submit (m + 1) :: post ∧ VEvent.waitOk m ∈ pre := by
  intro names
  induction names with
  | nil =>
    intro k m _ h
    simp [addValLoop] at h
  | cons x rest ih =>
    intro k m hkm h
    rcases hs : sr k with e | t
    · simp only [addValLoop, hs] at h
      simp at h
      omega
    · rcases hw : fleetWait n (fp k) with e | u
      · simp only [addValLoop, hs, hw] at h
        simp at h
        omega
      · rcases u
        simp only [addValLoop, hs, hw] at h ⊢
        simp only [List.mem_cons] at h
        rcases h with h | h | h
        · exact absurd h (by simp; omega)
        · exact absurd h (by simp)
        · rcases Nat.eq_or_lt_of_le hkm with rfl | hlt
          · rcases rest with _ | ⟨y, rest2⟩
            · simp [addValLoop] at h
            · rcases addValLoop_head y rest2 (k + 1) n sr fp with ⟨tail, htl⟩
              refine ⟨[.submit k, .waitOk k], tail, ?_, by simp⟩
              simp [htl]
          · rcases ih (k + 1) m hlt h with ⟨pre, post, hdecomp, hmem⟩
            refine ⟨.submit k :: .waitOk k :: pre, post, ?_, by simp [hmem]⟩
            simp [hdecomp]

/-- Claim C4: the Validator Registration Stage is strictly sequential.  On
success it issues exactly one submission per fleet node, in round order
(`submits = range N`); whenever the trace contains submission `m + 1`, the
fleet-wide wait of round `m` succeeded on all `N` workers and its completion
appears strictly before that submission in the trace; and when some round's
fleet-wide wait does not succeed, no later submission ever appears. -/
theorem C4_sequential_validator_registration (allNodes : List NodeName)
    (sr : Nat → Except String String) (fp : Nat → Nat → List PollResp) :
    ((addAllAsValidators allNodes sr fp).1 = .ok () →
      (addAllAsValidators allNodes sr fp).2 = goodTrace 0 allNodes.length ∧
      submits (addAllAsValidators allNodes sr fp).2 =
        List.range allNodes.length) ∧
    (∀ m, VEvent.submit (m + 1) ∈ (addAllAsValidators allNodes sr fp).2 →
      fleetWait allNodes.length (fp m) = .ok () ∧
      ∃ pre post, (addAllAsValidators allNodes sr fp).2 =
        pre ++ VEvent.submit (m + 1) :: post ∧ VEvent.waitOk m ∈ pre) ∧
    (∀ m j, fleetWait allNodes.length (fp m) ≠ .ok () → m < j →
      VEvent.submit j ∉ (addAllAsValidators allNodes sr fp).2) := by
  refine ⟨?_, ?_, ?_⟩
  · intro hok
    have htr := addValLoop_ok_trace allNodes.length sr fp allNodes 0 hok
    exact ⟨htr, by
      rw [addAllAsValidators, htr, goodTrace_submits, List.range_eq_range']⟩
  · intro m hmem
    have hall := (addValLoop_submit_mem allNodes.length sr fp allNodes 0
      (m + 1) hmem).2
    refine ⟨(hall m (Nat.zero_le m) (Nat.lt_succ_self m)).2, ?_⟩
    exact addValLoop_submit_after_wait allNodes.length sr fp allNodes 0 m
      (Nat.zero_le m) hmem
  · intro m j hfail hmj hmem
    have hall := (addValLoop_submit_mem allNodes.length sr fp allNodes 0
      j hmem).2
    exact hfail (hall m (Nat.zero_le m) hmj).2

/-- Witness for C4: a two-node fleet in which every submission and every
fleet-wide wait succeeds yields the canonical trace with exactly two
submissions, and its second submission certifies the first round's wait. -/
theorem C4_witness :
    (addAllAsValidators ["a", "b"] (fun _ => .ok "t")
      (fun _ _ => [.status .Committed])).2 = goodTrace 0 2 ∧
    fleetWait 2 (fun _ => [.status .Committed]) = .ok () := by
  constructor
  · exact ((C4_sequential_validator_registration ["a", "b"]
      (fun _ => .ok "t") (fun _ _ => [.status .Committed])).1 rfl).1
  · exact ((C4_sequential_validator_registration ["a", "b"]
      (fun _ => .ok "t") (fun _ _ => [.status .Committed])).2.1 0
      (by decide)).1

/-- Every event the issuer-local poll loop emits is a query on the issuing
node's client, slept at the fast retry interval. -/
theorem cbPollLoop_trace (issuer : String) :
    ∀ polls : List PollResp, ∃ n,
      (cbPollLoop issuer polls).2 =
        List.replicate n (.query issuer apiRetryFreq) := by
  intro polls
  induction polls with
  | nil => exact ⟨0, rfl⟩
  | cons x rest ih =>
    rcases x with e | s
    · exact ⟨1, rfl⟩
    · rcases s with _ | _ | _ | _
      · exact ⟨1, rfl⟩
      all_goals
        rcases ih with ⟨n, hn⟩
        exact ⟨n + 1, by simp [cbPollLoop, hn, List.replicate_succ]⟩

/-- On a run of pending statuses the issuer-local poll loop queries once per
response and stops only because the context fires. -/
theorem cbPollLoop_pending (issuer : String) (n : Nat) :
    cbPollLoop issuer (List.replicate n (.status .Processing)) =
      (.error "context done",
       List.replicate n (.query issuer apiRetryFreq)) := by
  induction n with
  | zero => rfl
  | succ m ih => simp [List.replicate_succ, cbPollLoop, ih]

/-- Claim C7: the Chain Creation Stage fails with the IO error and issues
nothing when the genesis file cannot be read; once the genesis is read, its
trace is exactly one submission followed only by status queries on the
issuing node's client at the fast retry interval (no other node is ever
queried); and on an arbitrarily long run of pending statuses it keeps polling
once per interval and stops only with the context's error — it has no
internal deadline. -/
theorem C7_chain_creation_issuer_local (issuer g t e : String)
    (s : Except String String) (polls : List PollResp) :
    (createBlockchain issuer (.error e) s polls =
      (.error ("could not read genesis file: " ++ e), [])) ∧
    (∃ n, (createBlockchain issuer (.ok g) s polls).2 =
      .submitChain :: List.replicate n (.query issuer apiRetryFreq)) ∧
    (∀ npend, createBlockchain issuer (.ok g) (.ok t)
        (List.replicate npend (.status .Processing)) =
      (.error "context done",
       .submitChain :: List.replicate npend (.query issuer apiRetryFreq))) := by
  refine ⟨rfl, ?_, ?_⟩
  · rcases s with e2 | txID
    · exact ⟨0, rfl⟩
    · rcases hp : cbPollLoop issuer polls with ⟨res, tr⟩
      rcases cbPollLoop_trace issuer polls with ⟨n, hn⟩
      rw [hp] at hn
      simp only [Prod.snd] at hn
      rcases res with e2 | u
      · exact ⟨n, by simp [createBlockchain, hp, hn]⟩
      · rcases u
        exact ⟨n, by simp [createBlockchain, hp, hn]⟩
  · intro npend
    simp [createBlockchain, cbPollLoop_pending]

/-- Claim C10: the blockchain identifier `createBlockchain` returns on
success is exactly the transaction handle of the create-chain submission, and
the Finalization Stage keys every validating-status query, every
bootstrap-status query, and every endpoint report line by exactly the
identifier it is handed — no separate chain identifier is derived or
queried. -/
theorem C10_blockchain_id_is_tx_handle (issuer : String)
    (genesisRes s : Except String String) (polls : List PollResp)
    (allNodes : List (NodeName × Node)) (bid : String)
    (vp : NodeName → List VPoll) (bp : NodeName → List BPoll) :
    (∀ id, (createBlockchain issuer genesisRes s polls).1 = .ok id →
      s = .ok id) ∧
    (∀ q ∈ (finalizeBlockchain allNodes bid vp bp).2.vQueries, q.2 = bid) ∧
    (∀ q ∈ (finalizeBlockchain allNodes bid vp bp).2.bQueries, q.2 = bid) ∧
    (∀ r ∈ (finalizeBlockchain allNodes bid vp bp).2.reports,
      r.2.2.2 = bid) := by
  have hflat : ∀ (f : NodeName × Node → Nat) (q : NodeName × String),
      q ∈ allNodes.flatMap (fun p => List.replicate (f p) (p.1, bid)) →
      q.2 = bid := by
    intro f q hq
    rcases List.mem_flatMap.1 hq with ⟨p, _hp, hqr⟩
    rcases (List.mem_replicate.1 hqr).2 with rfl
    rfl
  refine ⟨?_, ?_, ?_, ?_⟩
  · intro id h
    rcases genesisRes with e | g2
    · simp [createBlockchain] at h
    · rcases s with e | txID
      · simp [createBlockchain] at h
      · rcases hp : cbPollLoop issuer polls with ⟨res, tr⟩
        rcases res with e | u
        · simp [createBlockchain, hp] at h
        · rcases u
          simp [createBlockchain, hp] at h
          rw [h]
  · intro q hq
    rcases hv : ensureValidating (allNodes.map (fun p => (p.1, vp p.1))) with
      e | u
    · simp only [finalizeBlockchain, hv] at hq
      exact hflat _ q hq
    · rcases u
      rcases hb : ensureBootstrapped (allNodes.map (fun p => (p.1, bp p.1)))
        with e | u2
      · simp only [finalizeBlockchain, hv, hb] at hq
        exact hflat _ q hq
      · rcases u2
        simp only [finalizeBlockchain, hv, hb] at hq
        exact hflat _ q hq
  · intro q hq
    rcases hv : ensureValidating (allNodes.map (fun p => (p.1, vp p.1))) with
      e | u
    · simp only [finalizeBlockchain, hv] at hq
      simp at hq
    · rcases u
      rcases hb : ensureBootstrapped (allNodes.map (fun p => (p.1, bp p.1)))
        with e | u2
      · simp only [finalizeBlockchain, hv, hb] at hq
        exact hflat _ q hq
      · rcases u2
        simp only [finalizeBlockchain, hv, hb] at hq
        exact hflat _ q hq
  · intro r hr
    rcases hv : ensureValidating (allNodes.map (fun p => (p.1, vp p.1))) with
      e | u
    · simp only [finalizeBlockchain, hv] at hr
      simp at hr
    · rcases u
      rcases hb : ensureBootstrapped (allNodes.map (fun p => (p.1, bp p.1)))
        with e | u2
      · simp only [finalizeBlockchain, hv, hb] at hr
        simp at hr
      · rcases u2
        simp only [finalizeBlockchain, hv, hb] at hr
        rcases List.mem_map.1 hr with ⟨p, _hp, rfl⟩
        rfl

/-- Witness for C10: applied to a successful one-node run with concrete
handle and identifier. -/
theorem C10_witness :
    (Except.ok "tx" : Except String String) = .ok "tx" ∧
    ("n1", "bid").2 = "bid" :=
  ⟨(C10_blockchain_id_is_tx_handle "issuer" (.ok "g") (.ok "tx")
      [.status .Committed] [] "bid" (fun _ => []) (fun _ => [])).1 "tx" rfl,
   (C10_blockchain_id_is_tx_handle "issuer" (.ok "g") (.ok "tx")
      [.status .Committed]
      [("n1", { nodeID := "i1", url := "u1", apiPort := 1 })] "bid"
      (fun _ => [.status .Validating]) (fun _ => [(true, none)])).2.1
      ("n1", "bid") (by decide)⟩

/-- The bootstrap worker loop with its sleep trace: the interval slept before
every `IsBootstrapped` query is the constant `apiRetryFreq`
(src/vms/subnet.go:353). -/
def bootstrappedWorkerT : List BPoll → Except String Unit × List Nat
  | [] => (.error "context done", [])
  | (true, _) :: _ => (.ok (), [apiRetryFreq])
  | (false, _) :: rest =>
    match bootstrappedWorkerT rest with
    | (r, sl) => (r, apiRetryFreq :: sl)

/-- Invariant of the interleaved `ensureValidating` model: the shared pacing
value is either the fast or the long interval; it is long exactly while no
worker has succeeded and fast only once some worker has; and every interval
already slept is at least the current pacing. -/
def vInv (s : VSt) : Prop :=
  (s.pacing = apiRetryFreq ∨ s.pacing = longTimeout) ∧
  (s.pacing = longTimeout →
    ∀ (j : Nat) (w : VWorkerSt),
      s.workers[j]? = some w → isOkResult w.result = false) ∧
  (s.pacing = apiRetryFreq →
    ∃ (j : Nat) (w : VWorkerSt),
      s.workers[j]? = some w ∧ isOkResult w.result = true) ∧
  (∀ d ∈ s.sleeps, s.pacing ≤ d)

theorem listModify_getElem? {α : Type} (f : α → α) :
    ∀ (l : List α) (i j : Nat),
      (listModify f i l)[j]? = if i = j then (l[j]?).map f else l[j]? := by
  intro l
  induction l with
  | nil =>
    intro i j
    simp [listModify]
  | cons x xs ih =>
    intro i j
    rcases i with _ | i
    · rcases j with _ | j <;> simp [listModify]
    · rcases j with _ | j
      · simp [listModify]
      · simp only [listModify, List.getElem?_cons_succ, ih i j]
        by_cases hij : i = j
        · simp [hij]
        · simp [hij, fun h => hij (Nat.succ_injective h)]

theorem vInv_init (inputs : List (List VPoll)) : vInv (vInit inputs) := by
  refine ⟨Or.inr rfl, ?_, ?_, by simp [vInit]⟩
  · intro _ j w hj
    have hw : w ∈ (vInit inputs).workers := List.getElem?_mem hj
    simp only [vInit, List.mem_map] at hw
    rcases hw with ⟨p, _hp, rfl⟩
    rfl
  · intro hfast
    simp [vInit, longTimeout, apiRetryFreq] at hfast

/-- The shared pacing value is at least the fast retry interval whenever the
invariant holds. -/
theorem vInv_pacing_ge (s : VSt) (hs : vInv s) : apiRetryFreq ≤ s.pacing := by
  rcases hs.1 with h | h
  · rw [h]
  · rw [h]
    decide

/-- Replacing the stepped worker by a still-unsuccessful one, leaving the
pacing unchanged, preserves the invariant. -/
theorem vInv_replace_not_ok (s : VSt) (i : Nat) (w w2 : VWorkerSt)
    (hs : vInv s) (hw : s.workers[i]? = some w)
    (hwok : isOkResult w.result = false)
    (hw2ok : isOkResult w2.result = false)
    (sl : List Nat) (hsl : ∀ d ∈ sl, s.pacing ≤ d) :
    vInv { pacing := s.pacing
           workers := listModify (fun _ => w2) i s.workers
           sleeps := sl } := by
  obtain ⟨hdisj, hlong, hfast, _⟩ := hs
  refine ⟨hdisj, ?_, ?_, hsl⟩
  · intro hl j w3 hj
    rw [listModify_getElem?] at hj
    by_cases hij : i = j
    · rw [if_pos hij] at hj
      subst hij
      rw [hw] at hj
      simp only [Option.map] at hj
      injection hj with hj2
      rw [← hj2]
      exact hw2ok
    · rw [if_neg hij] at hj
      exact hlong hl j w3 hj
  · intro hf
    rcases hfast hf with ⟨j, w3, hj, hok⟩
    refine ⟨j, w3, ?_, hok⟩
    rw [listModify_getElem?]
    by_cases hij : i = j
    · subst hij
      rw [hw] at hj
      injection hj with hj2
      rw [hj2] at hwok
      rw [hok] at hwok
      exact Bool.noConfusion hwok
    · rw [if_neg hij]
      exact hj

/-- Replacing the stepped worker by a succeeded one and setting the pacing to
the fast retry interval preserves the invariant. -/
theorem vInv_replace_ok (s : VSt) (i : Nat) (w2 : VWorkerSt) (w : VWorkerSt)
    (hs : vInv s) (hw : s.workers[i]? = some w)
    (hw2ok : isOkResult w2.result = true) :
    vInv { pacing := apiRetryFreq
           workers := listModify (fun _ => w2) i s.workers
           sleeps := s.pacing :: s.sleeps } := by
  obtain ⟨hdisj, hlong, hfast, hsleep⟩ := hs
  refine ⟨Or.inl rfl, ?_, ?_, ?_⟩
  · intro hl
    simp only [apiRetryFreq, longTimeout] at hl
    omega
  · intro _
    refine ⟨i, w2, ?_, hw2ok⟩
    rw [listModify_getElem?, if_pos rfl, hw]
    rfl
  · intro d hd
    have hge : apiRetryFreq ≤ s.pacing := vInv_pacing_ge s ⟨hdisj, hlong, hfast, hsleep⟩
    rcases List.mem_cons.1 hd with rfl | hd2
    · exact hge
    · exact Nat.le_trans hge (hsleep d hd2)

/-- One step preserves the invariant. -/
theorem vInv_step (s : VSt) (i : Nat) (hs : vInv s) : vInv (vStep s i) := by
  obtain ⟨hdisj, hlong, hfast, hsleep⟩ := hs
  rcases hw : s.workers[i]? with _ | w
  · simpa [vStep, hw] using ⟨hdisj, hlong, hfast, hsleep⟩
  · rcases hres : w.result with _ | r
    · rcases hpolls : w.polls with _ | ⟨p, rest⟩
      · simp only [vStep, hw, vStepW, hres, hpolls]
        exact vInv_replace_not_ok s i w _ ⟨hdisj, hlong, hfast, hsleep⟩ hw
          (by simp [hres, isOkResult]) (by simp [isOkResult]) s.sleeps hsleep
      · rcases p with e | st
        · simp only [vStep, hw, vStepW, hres, hpolls]
          exact vInv_replace_not_ok s i w _ ⟨hdisj, hlong, hfast, hsleep⟩ hw
            (by simp [hres, isOkResult]) (by simp [isOkResult])
            (s.pacing :: s.sleeps)
            (by
              intro d hd
              rcases List.mem_cons.1 hd with rfl | hd2
              · exact Nat.le_refl _
              · exact hsleep d hd2)
        · rcases st with _ | _ | _ | _
          · simp only [vStep, hw, vStepW, hres, hpolls]
            exact vInv_replace_ok s i _ w ⟨hdisj, hlong, hfast, hsleep⟩ hw
              (by simp [isOkResult])
          all_goals
            simp only [vStep, hw, vStepW, hres, hpolls]
            exact vInv_replace_not_ok s i w _ ⟨hdisj, hlong, hfast, hsleep⟩ hw
              (by simp [hres, isOkResult]) (by simp [isOkResult])
              (s.pacing :: s.sleeps)
              (by
                intro d hd
                rcases List.mem_cons.1 hd with rfl | hd2
                · exact Nat.le_refl _
                · exact hsleep d hd2)
    · simp only [vStep, hw, vStepW, hres]
      have hws : ∀ j : Nat, (listModify (fun _ => w) i s.workers)[j]? =
          s.workers[j]? := by
        intro j
        rw [listModify_getElem?]
        by_cases hij : i = j
        · subst hij
          rw [hw, if_pos rfl]
          rfl
        · rw [if_neg hij]
      refine ⟨hdisj, ?_, ?_, hsleep⟩
      · intro hl j w3 hj
        rw [hws j] at hj
        exact hlong hl j w3 hj
      · intro hf
        rcases hfast hf with ⟨j, w3, hj, hok⟩
        refine ⟨j, w3, ?_, hok⟩
        rw [hws j]
        exact hj

/-- One step never lengthens the pacing. -/
theorem vStep_pacing_le (s : VSt) (i : Nat) (hs : vInv s) :
    (vStep s i).pacing ≤ s.pacing := by
  rcases hw : s.workers[i]? with _ | w
  · simp [vStep, hw]
  · rcases hres : w.result with _ | r
    · rcases hpolls : w.polls with _ | ⟨p, rest⟩
      · simp [vStep, hw, vStepW, hres, hpolls]
      · rcases p with e | st
        · simp [vStep, hw, vStepW, hres, hpolls]
        · rcases st with _ | _ | _ | _
          · simp only [vStep, hw, vStepW, hres, hpolls]
            exact vInv_pacing_ge s hs
          all_goals simp [vStep, hw, vStepW, hres, hpolls]
    · simp [vStep, hw, vStepW, hres]

theorem vInv_run (sched : List Nat) :
    ∀ s : VSt, vInv s → vInv (vRun s sched) := by
  induction sched with
  | nil => intro s hs; exact hs
  | cons i rest ih => intro s hs; exact ih (vStep s i) (vInv_step s i hs)

theorem vRun_pacing_le (sched : List Nat) :
    ∀ s : VSt, vInv s → (vRun s sched).pacing ≤ s.pacing := by
  induction sched with
  | nil => intro s _; exact Nat.le_refl _
  | cons i rest ih =>
    intro s hs
    exact Nat.le_trans (ih (vStep s i) (vInv_step s i hs))
      (vStep_pacing_le s i hs)

theorem vRun_append (s1 s2 : List Nat) :
    ∀ s : VSt, vRun s (s1 ++ s2) = vRun (vRun s s1) s2 := by
  induction s1 with
  | nil => intro s; rfl
  | cons i rest ih => intro s; exact ih (vStep s i)

/-- Under the invariant, the pacing is fast exactly when some worker has
confirmed `Validating`. -/
theorem vInv_fast_iff (s : VSt) (hs : vInv s) :
    s.pacing = apiRetryFreq ↔ someConfirmed s = true := by
  obtain ⟨hdisj, hlong, hfast, _⟩ := hs
  constructor
  · intro hf
    rcases hfast hf with ⟨j, w, hj, hok⟩
    exact List.any_eq_true.2 ⟨w, List.getElem?_mem hj, hok⟩
  · intro hc
    rcases List.any_eq_true.1 hc with ⟨w, hmem, hok⟩
    rcases hdisj with h | h
    · exact h
    · rcases List.getElem_of_mem hmem with ⟨j, hjlt, hjw⟩
      have hj : s.workers[j]? = some w := by
        rw [List.getElem?_eq_getElem hjlt, hjw]
      rw [hlong h j w hj] at hok
      exact Bool.noConfusion hok

/-- Every sleep recorded by a bootstrap worker is the fast retry interval. -/
theorem bootstrappedWorkerT_sleeps :
    ∀ polls : List BPoll, ∀ d ∈ (bootstrappedWorkerT polls).2,
      d = apiRetryFreq := by
  intro polls
  induction polls with
  | nil => intro d hd; simp [bootstrappedWorkerT] at hd
  | cons x rest ih =>
    rcases x with ⟨b, er⟩
    rcases b with _ | _
    · intro d hd
      rcases hb : bootstrappedWorkerT rest with ⟨r, sl⟩
      simp only [bootstrappedWorkerT, hb] at hd
      rcases List.mem_cons.1 hd with rfl | hd2
      · rfl
      · exact ih d (by rw [hb]; exact hd2)
    · intro d hd
      simp only [bootstrappedWorkerT, List.mem_singleton] at hd
      exact hd

/-- Claim C8: in the interleaved model of `ensureValidating`, under every
scheduler interleaving the shared poll-interval pacing starts at the long
timeout, is always either the long or the fast value, equals the fast retry
interval exactly when some worker has observed `Validating`, and never
lengthens as the run extends; every interval already slept is at least the
current pacing (so the slept intervals only shorten over time).  The bootstrap
wait records only the fixed fast retry interval for every sleep. -/
theorem C8_adaptive_pacing_transition (inputs : List (List VPoll))
    (sched sched2 : List Nat) :
    (vInit inputs).pacing = longTimeout ∧
    ((vRun (vInit inputs) sched).pacing = longTimeout ∨
      (vRun (vInit inputs) sched).pacing = apiRetryFreq) ∧
    ((vRun (vInit inputs) sched).pacing = apiRetryFreq ↔
      someConfirmed (vRun (vInit inputs) sched) = true) ∧
    (vRun (vInit inputs) (sched ++ sched2)).pacing ≤
      (vRun (vInit inputs) sched).pacing ∧
    (∀ d ∈ (vRun (vInit inputs) sched).sleeps,
      (vRun (vInit inputs) sched).pacing ≤ d) ∧
    (∀ polls : List BPoll, ∀ d ∈ (bootstrappedWorkerT polls).2,
      d = apiRetryFreq) := by
  have hinv : vInv (vRun (vInit inputs) sched) :=
    vInv_run sched (vInit inputs) (vInv_init inputs)
  refine ⟨rfl, ?_, vInv_fast_iff _ hinv, ?_, hinv.2.2.2, bootstrappedWorkerT_sleeps⟩
  · exact hinv.1.symm
  · rw [vRun_append]
    exact vRun_pacing_le sched2 _ hinv

/-- Witness for C8: one worker observing `Validating` in one step flips the
shared pacing to the fast interval, and the one recorded sleep (made at the
long pacing) is at least the new pacing. -/
theorem C8_witness :
    (vRun (vInit [[VPoll.status .Validating]]) [0]).pacing = apiRetryFreq ∧
    (vRun (vInit [[VPoll.status .Validating]]) [0]).pacing ≤ 100 :=
  ⟨(C8_adaptive_pacing_transition [[VPoll.status .Validating]] [0] []).2.2.1.mpr
      (by decide),
   (C8_adaptive_pacing_transition [[VPoll.status .Validating]] [0] []).2.2.2.2.1
      100 (by decide)⟩

end VMS
